import Mathlib

/-!
Shallow embedding of the `ged` line editor (a Go rewrite of `ed`).

The embedding follows the Go sources:
* `FileBuffer` and its methods follow filebuffer.go (the file whose name was
  lost, `src/unnamed/part_001`), which is the newest copy of the buffer type
  in the sources;
* the address consumers `AddrRange`, `AddrValue`, `AddrRangeOrLine` and the
  address resolver follow ged.go;
* the command handlers follow commands.go.

Go `int` values are modelled as `Int` (no arithmetic in this program can
overflow 64 bits for list-backed buffer sizes), Go slices as `List`,
Go's `%` operator as `Int.tmod` (truncated remainder, exactly Go's `%`).
Go methods that mutate the receiver become functions returning the new
`FileBuffer`; methods returning `error` return `Except EdError` or pair the
new state with an `Option EdError` when the Go code keeps the partially
mutated global state on error.
-/

namespace Ged

/-- The distinct error values produced by the embedded code
(`ErrOOB`, `ErrINV`, the various `fmt.Errorf` results). The extra
`panicked` value is not an error the program ever returns or prints: it
marks a Go runtime panic (slice bounds out of range), which crashes the
process; it is kept distinct so that no theorem can mistake a crash for a
success or for a returned error. -/
inductive EdError where
  | oob
  | inv
  | order
  | noMatch
  | invalidBackref
  | fileModified
  | noSuchFile
  | moveRange
  | noSuchMark
  | clearedMark
  | invalidRegexp
  | regexpNotFound
  | panicked
  deriving DecidableEq, Repr

/-- Integer interval `[a, b]` as the list `a, a+1, ..., b` (empty when `b < a`);
mirrors the Go loops `for l := a; l <= b; l++`. -/
def intRange (a b : Int) : List Int :=
  (List.range (b - a + 1).toNat).map (fun i : Nat => a + (i : Int))

/-- A FileBuffer manages a file being edited (filebuffer.go).
`buffer` is the append-only pool of line contents, `file` the sequence of
pool indices forming the current view, `addr` the current address (0-based),
`marks` the mark table mapping a mark byte to a pool index. -/
structure FileBuffer where
  buffer : List String
  file : List Nat
  dirty : Bool
  addr : Int
  marks : List (Char × Nat)
  deriving DecidableEq, Repr

/-- NewFileBuffer creates a new FileBuffer whose view lists all pool lines. -/
def NewFileBuffer (inLines : List String) : FileBuffer :=
  { buffer := inLines
    file := List.range inLines.length
    dirty := false
    addr := 0
    marks := [] }

/-- OOB checks if a line is out of bounds (filebuffer.go `OOB`). -/
def FileBuffer.OOB (f : FileBuffer) (l : Int) : Bool :=
  l < 0 || l ≥ (f.file.length : Int)

/-- Len returns the current file length. -/
def FileBuffer.Len (f : FileBuffer) : Nat := f.file.length

/-- The line content at view position `l`: `f.buffer[f.file[l]]`.
Out-of-range accesses (which would panic in Go and are always guarded in the
source) default to `""`. -/
def FileBuffer.lineAt (f : FileBuffer) (l : Int) : String :=
  f.buffer.getD (f.file.getD l.toNat 0) ""

/-- GetMust gets a line known to be safe; when `set` it also moves the
current address there (filebuffer.go `GetMust`). -/
def FileBuffer.GetMust (f : FileBuffer) (line : Int) (set : Bool) : FileBuffer × String :=
  (if set then { f with addr := line } else f, f.lineAt line)

/-- Get a line range; each loop iteration sets `addr` to the line read, so on
a non-empty range the final `addr` is the upper endpoint (filebuffer.go `Get`). -/
def FileBuffer.Get (f : FileBuffer) (r : Int × Int) : Except EdError (FileBuffer × List String) :=
  if f.OOB r.1 || f.OOB r.2 then .error .oob
  else .ok (if r.1 ≤ r.2 then { f with addr := r.2 } else f, (intRange r.1 r.2).map f.lineAt)

/-- Remove the first occurrence of `b` from the list; the inner
`for i, l := range f.file` loop of `Delete`. -/
def removeFirst : List Nat → Nat → List Nat
  | [], _ => []
  | x :: xs, b => if x = b then xs else x :: removeFirst xs b

/-- Delete unmaps lines from the file (filebuffer.go `Delete`): collect the
pool indices of the range (out-of-bounds fails), remove each collected pool
index from the view, set `dirty`, set `addr` to `r.1 + 1` unless that is out
of bounds of the shrunken view, in which case `0`. -/
def FileBuffer.Delete (f : FileBuffer) (r : Int × Int) : Except EdError FileBuffer :=
  if (intRange r.1 r.2).any (fun l => f.OOB l) then .error .oob
  else
    let blines := (intRange r.1 r.2).map (fun l => f.file.getD l.toNat 0)
    let f' : FileBuffer := { f with file := blines.foldl removeFirst f.file, dirty := true }
    .ok { f' with addr := if f'.OOB (r.1 + 1) then 0 else r.1 + 1 }

/-- Insert adds `nlines` to the pool and splices them into the view at `line`
(filebuffer.go `Insert`); `line = Len` appends, an empty `nlines` is a no-op,
otherwise `dirty` is set and `addr` becomes `line + len nlines - 1`. -/
def FileBuffer.Insert (f : FileBuffer) (line : Int) (nlines : List String) : Except EdError FileBuffer :=
  if line != (f.file.length : Int) && f.OOB line then .error .oob
  else if nlines = [] then .ok f
  else
    .ok { buffer := f.buffer ++ nlines
          file := f.file.take line.toNat
                    ++ (List.range nlines.length).map (fun i => f.buffer.length + i)
                    ++ f.file.drop line.toNat
          dirty := true
          addr := line + nlines.length - 1
          marks := f.marks }

/-- Dirty returns whether the file has changed. -/
def FileBuffer.Dirty (f : FileBuffer) : Bool := f.dirty

/-- GetAddr gets the current file addr. -/
def FileBuffer.GetAddr (f : FileBuffer) : Int := f.addr

/-- SetAddr sets the current addr, errors if out of bounds. -/
def FileBuffer.SetAddr (f : FileBuffer) (i : Int) : Except EdError FileBuffer :=
  if f.OOB i then .error .oob else .ok { f with addr := i }

/-- Clean resets the dirty flag. -/
def FileBuffer.Clean (f : FileBuffer) : FileBuffer := { f with dirty := false }

/-- SetMark records the pool index of view line `l` under the mark name `c`
(filebuffer.go `SetMark`); the Go map write is modelled by replacing any
previous binding of `c`. -/
def FileBuffer.SetMark (f : FileBuffer) (c : Char) (l : Int) : Except EdError FileBuffer :=
  if f.OOB l then .error .oob
  else .ok { f with marks := (c, f.file.getD l.toNat 0) :: f.marks.filter (fun p => p.1 ≠ c) }

/-- GetMark looks the mark's pool index up in the view (filebuffer.go
`GetMark`): unknown name fails, a pool index no longer in the view fails as
cleared, otherwise the first view position holding it is returned. -/
def FileBuffer.GetMark (f : FileBuffer) (c : Char) : Except EdError Int :=
  match f.marks.find? (fun p => p.1 = c) with
  | none => .error .noSuchMark
  | some p =>
    match f.file.findIdx? (fun x => x = p.2) with
    | some i => .ok (i : Int)
    | none => .error .clearedMark

/-- Size returns the byte count of the current view (filebuffer.go `Size`). -/
def FileBuffer.Size (f : FileBuffer) : Nat :=
  (f.file.map (fun i => (f.buffer.getD i "").length)).sum

/-- The view as a list of line contents (what the document reads as). -/
def FileBuffer.viewLines (f : FileBuffer) : List String :=
  f.file.map (fun i => f.buffer.getD i "")

/-- AddrRange (ged.go): no address is invalid; exactly one address `a` gives
the range `(current address, a)`; otherwise the last two addresses. The Go
code first stores an out-of-bounds error and then overwrites it with the
out-of-order error, so out-of-order wins when both apply; the `if` chain
below reproduces that precedence. -/
def FileBuffer.AddrRange (f : FileBuffer) (addrs : List Int) : Except EdError (Int × Int) :=
  match addrs with
  | [] => .error .inv
  | _ :: _ =>
    let r : Int × Int :=
      if addrs.length = 1 then (f.addr, addrs.getD 0 0)
      else (addrs.getD (addrs.length - 2) 0, addrs.getD (addrs.length - 1) 0)
    if r.1 > r.2 then .error .order
    else if f.OOB r.1 || f.OOB r.2 then .error .oob
    else .ok r

/-- AddrValue (ged.go): the last address, out-of-bounds checked. -/
def FileBuffer.AddrValue (f : FileBuffer) (addrs : List Int) : Except EdError Int :=
  match addrs with
  | [] => .error .inv
  | _ :: _ =>
    let r := addrs.getD (addrs.length - 1) 0
    if f.OOB r then .error .oob else .ok r

/-- AddrRangeOrLine (ged.go): more than one address resolves as a range,
otherwise the single value `a` gives `(a, a)`. -/
def FileBuffer.AddrRangeOrLine (f : FileBuffer) (addrs : List Int) : Except EdError (Int × Int) :=
  if addrs.length > 1 then f.AddrRange addrs
  else
    match f.AddrValue addrs with
    | .error e => .error e
    | .ok a => .ok (a, a)

/-! ## The substitution engine (commands.go `cmdSub`)

Strings are manipulated through their character lists. The Go regexp
library is a host boundary: the compiled pattern's
`FindAllStringSubmatchIndex(l, -1)` is a parameter `matcher` giving, for
each match on a line, the flat index array Go returns (`m[0] m[1]` the
match span, `m[2i] m[2i+1]` group `i`, where a group that did not
participate in the match has the span `-1 -1`). Slices of the replacement
string use offsets produced by scanning the replacement itself and are
always in bounds (`natSlice`); slices of the subject line use offsets
taken from the matcher's arrays, where Go's slice expression panics out
of bounds — in particular on a non-participating group's `-1 -1` span —
so those go through `goSlice`, whose `none` is the panic
(`EdError.panicked`). -/

/-- Go slice `s[a:b]` with `Nat` offsets, for the slices of the
replacement string: their offsets come from `findBackrefs` scanning the
replacement itself, which keeps them inside it. -/
def natSlice (s : List Char) (a b : Nat) : List Char :=
  (s.drop a).take (b - a)

/-- Go string slicing `s[a:b]` with Go int offsets: defined exactly when
`0 ≤ a ≤ b ≤ len s`; anything else — for cmdSub, reachably the `-1 -1`
span of a non-participating capture group — is a runtime panic in Go
(it does not return a value), here `none`. -/
def goSlice (s : List Char) (a b : Int) : Option (List Char) :=
  if 0 ≤ a ∧ a ≤ b ∧ b ≤ (s.length : Int) then
    some ((s.drop a.toNat).take (b - a).toNat)
  else none

/-- rxBackrefSanitize.ReplaceAllString(rep, "  "): every pair of consecutive
backslashes becomes two spaces, scanning left to right without overlap. -/
def sanitizeBackslashPairs : List Char → List Char
  | '\\' :: '\\' :: rest => ' ' :: ' ' :: sanitizeBackslashPairs rest
  | c :: rest => c :: sanitizeBackslashPairs rest
  | [] => []

/-- Decimal digit list to its value (strconv.Atoi on an all-digit string;
cmdSub discards the error return). -/
def digitsToNat (s : List Char) : Nat :=
  s.foldl (fun a c => a * 10 + (c.toNat - '0'.toNat)) 0

/-- rxBackref.FindAllStringSubmatchIndex on the sanitized replacement: the
non-overlapping leftmost matches of a backslash followed by one or more
digits, as quadruples (start, end, group start, group end). Every step
consumes at least one byte, so the remaining byte count works as
structural fuel; `findBackrefs` supplies the full length. -/
def findBackrefsAux : Nat → List Char → Nat → List (Nat × Nat × Nat × Nat)
  | 0, _, _ => []
  | _ + 1, [], _ => []
  | fuel + 1, '\\' :: rest, pos =>
    let ds := rest.takeWhile Char.isDigit
    if ds.length > 0 then
      (pos, pos + 1 + ds.length, pos + 1, pos + 1 + ds.length)
        :: findBackrefsAux fuel (rest.drop ds.length) (pos + 1 + ds.length)
    else findBackrefsAux fuel rest (pos + 1)
  | fuel + 1, _ :: rest, pos => findBackrefsAux fuel rest (pos + 1)

/-- The backref scan over a whole replacement string. -/
def findBackrefs (s : List Char) (pos : Nat) : List (Nat × Nat × Nat × Nat) :=
  findBackrefsAux (s.length + 1) s pos

/-- The backref-filling loop of cmdSub: builds `fRep` from the replacement
`repC`, the source line `lC` and one match array `m`. A backref index
exceeding the match's group count (`len(m)/2 - 1` in Go int arithmetic)
aborts with invalid backref; that guard also keeps the indices `2i` and
`2i+1` inside `m` (so `getD` never defaults), but the span itself is
whatever the matcher produced — `l[m[2i]:m[2i+1]]` panics when it is not
an in-bounds slice, e.g. the `-1 -1` span of a non-participating group. -/
def fillBackrefs (repC lC : List Char) (m : List Int) :
    List (Nat × Nat × Nat × Nat) → Nat → List Char → Except EdError (List Char)
  | [], oRep, fRep => .ok (fRep ++ repC.drop oRep)
  | (r0, r1, r2, r3) :: rest, oRep, fRep =>
    let i := digitsToNat (natSlice repC r2 r3)
    if (i : Int) > (m.length : Int) / 2 - 1 then .error .invalidBackref
    else
      match goSlice lC (m.getD (2 * i) 0) (m.getD (2 * i + 1) 0) with
      | none => .error .panicked
      | some seg => fillBackrefs repC lC m rest r1 (fRep ++ natSlice repC oRep r0 ++ seg)

/-- The per-line match loop of cmdSub: interleaves the unmatched spans of
`lC` with the filled replacements, one match array at a time. The code
indexes `m[0]` and `m[1]` unguarded, which panics on an array of fewer
than two entries, and slices `l[oLin:m[0]]` and finally `l[oLin:]`, which
panic out of bounds; every such panic is the `panicked` outcome. -/
def rewriteLine (repC lC : List Char) (refs : List (Nat × Nat × Nat × Nat)) :
    List (List Int) → Int → List Char → Except EdError (List Char)
  | [], oLin, fLin =>
    match goSlice lC oLin (lC.length : Int) with
    | none => .error .panicked
    | some tail => .ok (fLin ++ tail)
  | m :: rest, oLin, fLin =>
    match fillBackrefs repC lC m refs 0 [] with
    | .error e => .error e
    | .ok fRep =>
      if 2 ≤ m.length then
        match goSlice lC oLin (m.getD 0 0) with
        | none => .error .panicked
        | some seg =>
          rewriteLine repC lC refs rest (m.getD 1 0) (fLin ++ seg ++ fRep)
      else .error .panicked

/-- The outer line loop of cmdSub over the fetched range `b`: lines without a
match are skipped, a matched line is rewritten and delete-inserted in place
at the relative index `ln` (the Go code indexes `range b`, not the view),
the match count and the last modified line are threaded through. The Go
code discards the errors of Delete and Insert, keeping the prior state. -/
def subLoop (matcher : String → List (List Int)) (repC : List Char)
    (refs : List (Nat × Nat × Nat × Nat)) :
    List String → Nat → FileBuffer → String → Nat →
    FileBuffer × Except EdError (String × Nat)
  | [], _, fb, last, nMatch => (fb, .ok (last, nMatch))
  | l :: rest, ln, fb, last, nMatch =>
    let ms := matcher l
    if ms.length > 0 then
      match rewriteLine repC l.toList refs ms 0 [] with
      | .error e => (fb, .error e)
      | .ok fLinC =>
        let fLin := String.mk fLinC
        let fb1 := ((fb.Delete ((ln : Int), (ln : Int))).toOption).getD fb
        let fb2 := ((fb1.Insert (ln : Int) [fLin]).toOption).getD fb1
        subLoop matcher repC refs rest (ln + 1) fb2 fLin (nMatch + ms.length)
    else subLoop matcher repC refs rest (ln + 1) fb last nMatch

/-- cmdSub (commands.go) after the delimiter parse: `rep` is the replacement
text between the second and third delimiter, `matcher` the compiled
pattern's match function (host regexp boundary), `addrs` the resolved
addresses. Returns the resulting global buffer (the Go code mutates it
before some error returns) and either an error or the printed last modified
line. `b, _ := buffer.Get(r)` discards Get's error, leaving `b` empty. -/
def cmdSub (fb : FileBuffer) (addrs : List Int) (rep : String)
    (matcher : String → List (List Int)) : FileBuffer × Except EdError String :=
  let refs := findBackrefs (sanitizeBackslashPairs rep.toList) 0
  match fb.AddrRangeOrLine addrs with
  | .error e => (fb, .error e)
  | .ok r =>
    let p := match fb.Get r with
      | .ok p => p
      | .error _ => (fb, [])
    match subLoop matcher rep.toList refs p.2 0 p.1 "" 0 with
    | (fb2, .error e) => (fb2, .error e)
    | (fb2, .ok (last, nMatch)) =>
      if nMatch = 0 then (fb2, .error .noMatch) else (fb2, .ok last)

/-! ## The remaining command handlers (commands.go) -/

/-- The insert/delete tail of cmdMove shared by the two destination cases. -/
def cmdMoveFinish (fb1 : FileBuffer) (r : Int × Int) (dest app : Int)
    (lines : List String) (isMove : Bool) : FileBuffer × Option EdError :=
  match fb1.Insert (dest + app) lines with
  | .error e => (fb1, some e)
  | .ok fb2 =>
    if isMove then
      match fb2.Delete r with
      | .error e => (fb2, some e)
      | .ok fb3 => (fb3, none)
    else (fb2, none)

/-- cmdMove (commands.go) for `m` and `t`: `addrs` are the resolved source
addresses, `destAddrs` the addresses resolved from the command suffix
(ResolveAddrs yields at least one on success). A last destination address
of `-1` (the user wrote `0`) is rewritten to `0` with insertion offset `0`
instead of `1`. The fetched source lines are inserted at `dest + app`
first; if the destination was below the source range the source range is
shifted up by its own length before the deletion that follows for `m`. -/
def cmdMove (fb : FileBuffer) (addrs destAddrs : List Int) (isMove : Bool) :
    FileBuffer × Option EdError :=
  match fb.AddrRangeOrLine addrs with
  | .error e => (fb, some e)
  | .ok r =>
    let lastA := destAddrs.getD (destAddrs.length - 1) 0
    let app : Int := if lastA = -1 then 0 else 1
    let destAddrs' := if lastA = -1 then destAddrs.dropLast ++ [0] else destAddrs
    match fb.AddrValue destAddrs' with
    | .error e => (fb, some e)
    | .ok dest =>
      match fb.Get r with
      | .error e => (fb, some e)
      | .ok (fb1, lines) =>
        let delt := r.2 - r.1 + 1
        if dest < r.1 then
          cmdMoveFinish fb1 (r.1 + delt, r.2 + delt) dest app lines isMove
        else if dest > r.2 then
          cmdMoveFinish fb1 r dest app lines isMove
        else (fb1, some .moveRange)

/-- cmdWrite (commands.go): the buffer-state effects of `w`/`W`. `addrs =
none` models a command line with no address prefix (`ctx.cmdOffset == 0`),
which selects the full range `[0, Len-1]`; otherwise the range comes from
AddrRange. The file write itself is I/O and is taken to succeed; the `q`
suffix and the unsupported `!` form are outside the buffer state. After a
successful write the code calls `Clean` unconditionally. -/
def cmdWrite (fb : FileBuffer) (addrs : Option (List Int)) :
    FileBuffer × Option EdError :=
  let rr : Except EdError (Int × Int) :=
    match addrs with
    | none => .ok (0, (fb.Len : Int) - 1)
    | some l => fb.AddrRange l
  match rr with
  | .error e => (fb, some e)
  | .ok r =>
    match fb.Get r with
    | .error e => (fb, some e)
    | .ok (fb1, _) => (fb1.Clean, none)

/-- Modelled from the spec: `FileBuffer.ReadFile` is code of this repository
that is not under src/ (only its caller cmdEdit is). Per the spec, `r`
"appends file contents at address", so the file's lines are inserted after
the addressed line. -/
def FileBuffer.ReadFile (f : FileBuffer) (line : Int) (contents : List String) :
    Except EdError FileBuffer :=
  f.Insert (line + 1) contents

/-- cmdEdit (commands.go) for `e`, `E` and `r`. The file system is a host
boundary: `fileExists` stands for the `os.Stat` probe and `fileLines` for
the lines of the named file; `fSuppress` is the `-s` flag. The handler
resolves the single address value first, before even deciding which of the
three commands it serves; filename bookkeeping and the unsupported `!` form
are outside the buffer state. -/
def cmdEdit (fb : FileBuffer) (addrs : List Int) (c : Char)
    (fileExists : Bool) (fileLines : List String) (fSuppress : Bool) :
    Except EdError FileBuffer :=
  match fb.AddrValue addrs with
  | .error e => .error e
  | .ok addr =>
    let force := c = 'E' || c = 'r'
    if fb.dirty && !force then .error .fileModified
    else if !fileExists && !fSuppress then .error .noSuchFile
    else if c != 'r' then .ok (NewFileBuffer fileLines)
    else fb.ReadFile addr fileLines

/-- cmdInput (commands.go) for `a`, `i` and `c` after input mode has
accumulated `nbuf` (the line reading and the single-line-suffix rejection
are I/O and parse level): an empty accumulation is a no-op; `i` inserts at
the address value, `a` after it, and `c` resolves a strict range, deletes it
discarding the error, and inserts at its lower end. -/
def cmdInput (fb : FileBuffer) (c : Char) (addrs : List Int) (nbuf : List String) :
    FileBuffer × Option EdError :=
  if nbuf = [] then (fb, none)
  else if c = 'i' then
    match fb.AddrValue addrs with
    | .error e => (fb, some e)
    | .ok line =>
      match fb.Insert line nbuf with
      | .error e => (fb, some e)
      | .ok fb1 => (fb1, none)
  else if c = 'a' then
    match fb.AddrValue addrs with
    | .error e => (fb, some e)
    | .ok line =>
      match fb.Insert (line + 1) nbuf with
      | .error e => (fb, some e)
      | .ok fb1 => (fb1, none)
  else
    match fb.AddrRange addrs with
    | .error e => (fb, some e)
    | .ok r =>
      let fb1 := (fb.Delete r).toOption.getD fb
      match fb1.Insert r.1 nbuf with
      | .error e => (fb1, some e)
      | .ok fb2 => (fb2, none)

/-- cmdPrint (commands.go) for `p`, `n`, `l`: the buffer-state effect is the
GetMust(l, true) of each line in the range, leaving `addr` at the upper
endpoint; the printing itself is I/O. -/
def cmdPrint (fb : FileBuffer) (addrs : List Int) : FileBuffer × Option EdError :=
  match fb.AddrRangeOrLine addrs with
  | .error e => (fb, some e)
  | .ok r => ((intRange r.1 r.2).foldl (fun f l => (f.GetMust l true).1) fb, none)

/-- cmdJoin (commands.go): a single line is a no-op; otherwise the
concatenation of the range replaces it via Delete then Insert. -/
def cmdJoin (fb : FileBuffer) (addrs : List Int) : FileBuffer × Option EdError :=
  match fb.AddrRangeOrLine addrs with
  | .error e => (fb, some e)
  | .ok r =>
    if r.1 = r.2 then (fb, none)
    else
      let joined := String.join ((intRange r.1 r.2).map fb.lineAt)
      match fb.Delete r with
      | .error e => (fb, some e)
      | .ok fb1 =>
        match fb1.Insert r.1 [joined] with
        | .error e => (fb1, some e)
        | .ok fb2 => (fb2, none)

/-- cmdMark (commands.go `k`): resolve the single address value and set the
mark named by the following command byte. -/
def cmdMark (fb : FileBuffer) (c : Char) (addrs : List Int) : FileBuffer × Option EdError :=
  match fb.AddrValue addrs with
  | .error e => (fb, some e)
  | .ok l =>
    match fb.SetMark c l with
    | .error e => (fb, some e)
    | .ok fb1 => (fb1, none)

/-! ## The dispatched commands as one step type

`Cmd` lists the dispatcher commands whose buffer methods are under src/,
each already carrying its resolved address lists and input-mode lines; the
undo command is the one whose buffer method (`Rewind` in buffer.go) is not
under src/ and is modelled from the spec below. -/

/-- One dispatched command with its resolved inputs. -/
inductive Cmd where
  | delete (addrs : List Int)
  | insertCmd (app : Bool) (addrs : List Int) (lines : List String)
  | change (addrs : List Int) (lines : List String)
  | print (addrs : List Int)
  | join (addrs : List Int)
  | move (addrs destAddrs : List Int) (isMove : Bool)
  | subst (addrs : List Int) (rep : String) (matcher : String → List (List Int))
  | write (addrs : Option (List Int))
  | editLoad (force : Bool) (contents : List String)
  | markCmd (c : Char) (addrs : List Int)
  | undo

/-- The commands that mutate the view (the Line Store mutators). -/
def Cmd.isMutating : Cmd → Bool
  | .delete _ | .insertCmd .. | .change .. | .join _ | .move .. | .subst .. => true
  | _ => false

/-- The commands whose success clears the dirty flag by design: a write
(cmdWrite calls Clean) or an edit load (a fresh NewFileBuffer). -/
def Cmd.isWriteOrLoad : Cmd → Bool
  | .write _ | .editLoad .. => true
  | _ => false

/-- Dispatch of one command to its handler at the buffer level; the pair
holds the resulting global buffer and the handler's error, mirroring how
the Go handlers mutate the global buffer and return an error. `editLoad`
is the `e`/`E` path of cmdEdit on an existing file. `undo` is handled one
level up, by `EdStep`. -/
def applyCmd (c : Cmd) (fb : FileBuffer) : FileBuffer × Option EdError :=
  match c with
  | .delete addrs =>
    match fb.AddrRangeOrLine addrs with
    | .error e => (fb, some e)
    | .ok r =>
      match fb.Delete r with
      | .error e => (fb, some e)
      | .ok fb1 => (fb1, none)
  | .insertCmd app addrs lines => cmdInput fb (if app then 'a' else 'i') addrs lines
  | .change addrs lines => cmdInput fb 'c' addrs lines
  | .print addrs => cmdPrint fb addrs
  | .join addrs => cmdJoin fb addrs
  | .move addrs dests isMove => cmdMove fb addrs dests isMove
  | .subst addrs rep matcher =>
    match cmdSub fb addrs rep matcher with
    | (fb1, .error e) => (fb1, some e)
    | (fb1, .ok _) => (fb1, none)
  | .write addrs => cmdWrite fb addrs
  | .editLoad force contents =>
    if fb.dirty && !force then (fb, some .fileModified)
    else (NewFileBuffer contents, none)
  | .markCmd ch addrs => cmdMark fb ch addrs
  | .undo => (fb, none)

/-! ## Undo snapshots

Modelled from the spec: `FileBuffer.Start`, `End` and `Rewind` live in
buffer.go, which is not under src/ (commands.go's cmdUndo and ged.go's run
only call them). Per spec section 4.1, Start pushes a snapshot of
(view, current address, dirty, marks) sharing the content pool, End is a
no-op marker, and Undo restores the most recently pushed snapshot while
itself pushing a snapshot of the pre-undo state, so that two undos in a row
toggle between the two most recent states. -/

/-- Modelled from the spec: an undo snapshot of (view, addr, dirty, marks);
pool contents are shared structurally and are not part of the snapshot. -/
structure Snapshot where
  file : List Nat
  addr : Int
  dirty : Bool
  marks : List (Char × Nat)
  deriving DecidableEq, Repr

/-- The snapshot of a buffer's restorable state. -/
def FileBuffer.snap (f : FileBuffer) : Snapshot :=
  ⟨f.file, f.addr, f.dirty, f.marks⟩

/-- Restoring a snapshot keeps the append-only pool and replaces the rest. -/
def FileBuffer.restore (f : FileBuffer) (s : Snapshot) : FileBuffer :=
  { f with file := s.file, addr := s.addr, dirty := s.dirty, marks := s.marks }

/-- The editor state threaded by run (ged.go): the global buffer plus the
undo stack that buffer.go maintains. -/
structure EdState where
  fb : FileBuffer
  undoStack : List Snapshot

/-- Modelled from the spec: one trip through run (ged.go) for a dispatched
command. Start pushes a snapshot of the pre-command buffer (also when the
handler later fails, which is what makes `u` after a failed command revert
partial state); End is a no-op. The undo command restores the snapshot
pushed before its own Start snapshot, leaving its own on top, which makes
two undos in a row toggle. -/
def EdStep (c : Cmd) (s : EdState) : EdState × Option EdError :=
  match c with
  | .undo =>
    match s.undoStack with
    | u :: rest => (⟨s.fb.restore u, s.fb.snap :: rest⟩, none)
    | [] => (⟨s.fb, [s.fb.snap]⟩, none)
  | c =>
    let r := applyCmd c s.fb
    (⟨r.1, s.fb.snap :: s.undoStack⟩, r.2)

/-! ## Shared list lemmas -/

/-- Reading every index of a list back with getD reproduces the list. -/
theorem map_getD_range {α : Type} (l : List α) (d : α) :
    (List.range l.length).map (fun i => l.getD i d) = l := by
  induction l with
  | nil => simp
  | cons x xs ih =>
    rw [List.length_cons, List.range_succ_eq_map, List.map_cons, List.map_map]
    simp only [List.getD_cons_zero, Function.comp_def, List.getD_cons_succ]
    rw [ih]

/-- getD after drop reads the shifted index. -/
theorem getD_drop {α : Type} (l : List α) (n m : Nat) (d : α) :
    (l.drop n).getD m d = l.getD (n + m) d := by
  rcases Nat.lt_or_ge (n + m) l.length with h | h
  · have h2 : m < (l.drop n).length := by simp only [List.length_drop]; omega
    rw [List.getD_eq_getElem _ _ h2, List.getD_eq_getElem _ _ h]
    simp
  · have h2 : (l.drop n).length ≤ m := by simp only [List.length_drop]; omega
    rw [List.getD_eq_default _ _ h2, List.getD_eq_default _ _ h]

/-- On a duplicate-free list, removing the first occurrence of the value at
position `a` removes exactly slot `a`. -/
theorem removeFirst_getD (l : List Nat) (a : Nat) (hnd : l.Nodup) (ha : a < l.length) :
    removeFirst l (l.getD a 0) = l.take a ++ l.drop (a + 1) := by
  induction l generalizing a with
  | nil => simp at ha
  | cons x xs ih =>
    cases a with
    | zero => simp [removeFirst]
    | succ k =>
      have hk : k < xs.length := by simpa using ha
      have hvmem : xs.getD k 0 ∈ xs := by
        rw [List.getD_eq_getElem _ _ hk]; exact List.getElem_mem hk
      have hne : ¬ x = xs.getD k 0 := by
        intro h; exact (List.nodup_cons.mp hnd).1 (h ▸ hvmem)
      simp only [List.getD_cons_succ, removeFirst, if_neg hne]
      rw [ih k (List.nodup_cons.mp hnd).2 hk]
      simp [List.take_succ_cons, List.drop_succ_cons]

/-- Dropping one more slot stays a sublist of the original list. -/
theorem take_drop_sublist {α : Type} (l : List α) (a : Nat) :
    (l.take a ++ l.drop (a + 1)).Sublist l := by
  conv_rhs => rw [← List.take_append_drop a l]
  apply List.Sublist.append_left
  rw [← List.drop_drop]
  exact List.drop_sublist _ _

/-- Taking the first `a` slots again after deleting slot `a`. -/
theorem take_of_take_drop {α : Type} (l : List α) (a : Nat) (ha : a ≤ l.length) :
    (l.take a ++ l.drop (a + 1)).take a = l.take a := by
  rw [List.take_append_of_le_length (by simp only [List.length_take]; omega),
    List.take_take, Nat.min_self]

/-- Dropping `a + m` slots after deleting slot `a` drops `a + 1 + m` of the
original. -/
theorem drop_of_take_drop {α : Type} (l : List α) (a m : Nat) (ha : a ≤ l.length) :
    (l.take a ++ l.drop (a + 1)).drop (a + m) = l.drop (a + 1 + m) := by
  have htk : (l.take a).length = a := by simp only [List.length_take]; omega
  rw [show a + m = (l.take a).length + m from by rw [htk], List.drop_append,
    List.drop_drop]

/-- Removing, in order, the first occurrences of the values at positions
a, a+1, ..., a+n-1 of a duplicate-free list deletes exactly those slots. -/
theorem foldl_removeFirst_interval (n : Nat) :
    ∀ (l : List Nat) (a : Nat), l.Nodup → a + n ≤ l.length →
    ((List.range n).map (fun i => l.getD (a + i) 0)).foldl removeFirst l
      = l.take a ++ l.drop (a + n) := by
  induction n with
  | zero =>
    intro l a _ _
    simp
  | succ m ih =>
    intro l a hnd hb
    have ha : a < l.length := by omega
    have hale : a ≤ l.length := by omega
    rw [List.range_succ_eq_map, List.map_cons, List.map_map, List.foldl_cons,
      Nat.add_zero, removeFirst_getD l a hnd ha]
    have hmap : (List.range m).map ((fun i => l.getD (a + i) 0) ∘ Nat.succ)
        = (List.range m).map (fun i => (l.take a ++ l.drop (a + 1)).getD (a + i) 0) := by
      apply List.map_congr_left
      intro i _
      simp only [Function.comp_def]
      rw [List.getD_append_right _ _ _ _ (by simp only [List.length_take]; omega),
        show a + i - (l.take a).length = i from by simp only [List.length_take]; omega,
        getD_drop]
      congr 1
      omega
    rw [hmap, ih _ a ((take_drop_sublist l a).nodup hnd)
      (by simp only [List.length_append, List.length_take, List.length_drop]; omega)]
    rw [take_of_take_drop l a hale, drop_of_take_drop l a m hale,
      show a + 1 + m = a + (m + 1) from by omega]

/-! ## Sample buffers for witnesses and counterexamples -/

/-- The three-line buffer [a, b, c] as freshly loaded. -/
def bufABC : FileBuffer := NewFileBuffer ["a", "b", "c"]

/-- The buffer [a, b, c] with current address 1. -/
def bufMid : FileBuffer :=
  { buffer := ["a", "b", "c"], file := [0, 1, 2], dirty := false, addr := 1, marks := [] }

/-- Pool validity: every view slot points into the pool (spec section 3
invariant; holds for every buffer the program constructs). -/
def FileBuffer.WF (f : FileBuffer) : Prop := ∀ i ∈ f.file, i < f.buffer.length

/-! ## C10: AddrRange with a single address -/

/-- C10: given exactly one address `a`, AddrRange resolves the range to
(current address, a) rather than (a, a): it fails with the
address-out-of-order error whenever the current address exceeds `a`, fails
out of bounds when the order is fine but an endpoint is outside `[0, N)`,
and otherwise yields `(current address, a)`. -/
theorem addrRange_single (f : FileBuffer) (a : Int) :
    (f.addr > a → f.AddrRange [a] = .error .order)
    ∧ (f.addr ≤ a → (f.OOB f.addr || f.OOB a) = true → f.AddrRange [a] = .error .oob)
    ∧ (f.addr ≤ a → (f.OOB f.addr || f.OOB a) = false → f.AddrRange [a] = .ok (f.addr, a)) := by
  refine ⟨fun h => ?_, fun h1 h2 => ?_, fun h1 h2 => ?_⟩ <;>
    simp only [FileBuffer.AddrRange, List.length_singleton, if_pos rfl, List.getD] <;>
    simp_all

/-- C10 witness: on [a, b, c] with current address 1, the single address 2
resolves to the range (1, 2). -/
theorem addrRange_single_witness : bufMid.AddrRange [2] = .ok (1, 2) :=
  (addrRange_single bufMid 2).2.2 (by decide) (by decide)

/-! ## C8: Insert -/

/-- C8: on a pool-valid buffer, Insert with `at` in `[0, N]` (`N` appends)
and a non-empty line list succeeds, splices the new lines into the view at
position `at`, sets the current address to `at + len - 1` and the dirty
flag; an `at` outside `[0, N]` fails out of bounds. -/
theorem insert_spec (f : FileBuffer) (a : Int) (nlines : List String) :
    (f.WF → 0 ≤ a → a ≤ (f.Len : Int) → nlines ≠ [] →
      ∃ f', f.Insert a nlines = .ok f'
        ∧ f'.viewLines = f.viewLines.take a.toNat ++ nlines ++ f.viewLines.drop a.toNat
        ∧ f'.addr = a + nlines.length - 1
        ∧ f'.dirty = true)
    ∧ ((a < 0 ∨ a > (f.Len : Int)) → f.Insert a nlines = .error .oob) := by
  constructor
  · intro hwf h0 hle hne
    have hcond : (a != (f.file.length : Int) && f.OOB a) = false := by
      by_cases h : a = (f.file.length : Int)
      · simp [h]
      · have hoob : f.OOB a = false := by
          simp only [FileBuffer.Len] at hle
          simp only [FileBuffer.OOB, Bool.or_eq_false_iff, decide_eq_false_iff_not,
            not_lt, not_le]
          constructor <;> omega
        simp [hoob]
    refine ⟨{ buffer := f.buffer ++ nlines
              file := f.file.take a.toNat
                        ++ (List.range nlines.length).map (fun i => f.buffer.length + i)
                        ++ f.file.drop a.toNat
              dirty := true
              addr := a + nlines.length - 1
              marks := f.marks }, ?_, ?_, rfl, rfl⟩
    · simp only [FileBuffer.Insert, hcond, Bool.false_eq_true, if_false, if_neg hne]
    · have hmapall : f.file.map (fun i => (f.buffer ++ nlines).getD i "")
          = f.file.map (fun i => f.buffer.getD i "") :=
        List.map_congr_left (fun i hi => List.getD_append _ _ _ _ (hwf i hi))
      have hfun : ((fun i => (f.buffer ++ nlines).getD i "") ∘ fun i => f.buffer.length + i)
          = fun i => nlines.getD i "" := by
        funext i
        simp only [Function.comp_def]
        rw [List.getD_append_right _ _ _ _ (by omega)]
        congr 1
        omega
      simp only [FileBuffer.viewLines, List.map_append, List.map_take, List.map_drop,
        List.map_map, hmapall, hfun, map_getD_range]
  · intro h
    have h1 : (a != (f.file.length : Int)) = true := by
      simp only [FileBuffer.Len] at h
      simp only [bne_iff_ne, ne_eq]
      rcases h with h | h <;> omega
    have h2 : f.OOB a = true := by
      simp only [FileBuffer.Len] at h
      simp only [FileBuffer.OOB, Bool.or_eq_true, decide_eq_true_eq]
      rcases h with h | h
      · exact Or.inl h
      · exact Or.inr (by omega)
    simp only [FileBuffer.Insert, h1, h2, Bool.and_self, if_true]

/-- C8 witness: inserting one line at position 1 of [a, b, c] gives
[a, x, b, c] with address 1 and the dirty flag set, and inserting at 4
fails out of bounds. -/
theorem insert_spec_witness :
    (∃ f', bufMid.Insert 1 ["x"] = .ok f'
      ∧ f'.viewLines = bufMid.viewLines.take (1 : Int).toNat ++ ["x"]
          ++ bufMid.viewLines.drop (1 : Int).toNat
      ∧ f'.addr = 1 + (["x"] : List String).length - 1
      ∧ f'.dirty = true)
    ∧ bufMid.Insert 4 ["x"] = .error .oob :=
  ⟨(insert_spec bufMid 1 ["x"]).1
      (by intro i hi; simp [bufMid] at hi ⊢; omega)
      (by decide) (by decide) (by decide),
   (insert_spec bufMid 4 ["x"]).2 (Or.inr (by decide))⟩

/-! ## C2: Delete -/

/-- C2 counterexample: deleting line 0 of the three-line buffer [a, b, c]
succeeds and leaves the current address at 1, not at the (still valid)
lower bound 0 of the deleted range that the claim demands. -/
theorem delete_addr_counterexample :
    (bufABC.Delete (0, 0)).toOption.map FileBuffer.addr = some 1
      ∧ (bufABC.Delete (0, 0)).toOption.map FileBuffer.addr ≠ some 0 := by
  constructor <;> decide

/-- C2 amended: for `0 ≤ lo ≤ hi < N` on a duplicate-free view, Delete
removes exactly the view slots `lo..hi` and sets the dirty flag, and the
current address becomes `lo + 1` when that is a valid position of the
shrunken view and `0` otherwise (the code adds one to the lower bound and
falls back to `0`, with no clamping to `N - 1`). -/
theorem delete_spec (f : FileBuffer) (lo hi : Int) (hnd : f.file.Nodup)
    (h0 : 0 ≤ lo) (hlh : lo ≤ hi) (hhi : hi < (f.Len : Int)) :
    f.Delete (lo, hi) = .ok
      { buffer := f.buffer
        file := f.file.take lo.toNat ++ f.file.drop (hi.toNat + 1)
        dirty := true
        addr := if lo + 1 < (f.Len : Int) - (hi - lo + 1) then lo + 1 else 0
        marks := f.marks } := by
  simp only [FileBuffer.Len] at hhi ⊢
  have hguard : ((intRange lo hi).any (fun l => f.OOB l)) = false := by
    rw [List.any_eq_false]
    intro x hx
    rw [intRange, List.mem_map] at hx
    obtain ⟨i, hi2, rfl⟩ := hx
    rw [List.mem_range] at hi2
    simp only [FileBuffer.OOB, Bool.or_eq_true, decide_eq_true_eq, not_or]
    constructor <;> omega
  have hbl : (intRange lo hi).map (fun l => f.file.getD l.toNat 0)
      = (List.range (hi - lo + 1).toNat).map (fun i => f.file.getD (lo.toNat + i) 0) := by
    simp only [intRange, List.map_map]
    apply List.map_congr_left
    intro i _
    simp only [Function.comp_def]
    congr 1
    omega
  have hfile : ((intRange lo hi).map (fun l => f.file.getD l.toNat 0)).foldl
        removeFirst f.file
      = f.file.take lo.toNat ++ f.file.drop (hi.toNat + 1) := by
    rw [hbl, foldl_removeFirst_interval _ _ _ hnd (by omega),
      show lo.toNat + (hi - lo + 1).toNat = hi.toNat + 1 from by omega]
  have hlen : (((intRange lo hi).map (fun l => f.file.getD l.toNat 0)).foldl
        removeFirst f.file).length
      = f.file.length - (hi.toNat + 1 - lo.toNat) := by
    rw [hfile]
    simp only [List.length_append, List.length_take, List.length_drop]
    omega
  simp only [FileBuffer.Delete, hguard, Bool.false_eq_true, if_false]
  congr 1
  refine FileBuffer.mk.injEq .. |>.mpr ⟨rfl, hfile, rfl, ?_, rfl⟩
  by_cases hc : lo + 1 < (f.file.length : Int) - (hi - lo + 1)
  · rw [if_pos hc]
    have : FileBuffer.OOB
        { f with
          file := ((intRange lo hi).map (fun l => f.file.getD l.toNat 0)).foldl
            removeFirst f.file
          dirty := true } (lo + 1) = false := by
      simp only [FileBuffer.OOB, Bool.or_eq_false_iff, decide_eq_false_iff_not,
        not_lt, not_le, hlen]
      constructor <;> omega
    rw [this, if_neg (by simp)]
  · rw [if_neg hc]
    have : FileBuffer.OOB
        { f with
          file := ((intRange lo hi).map (fun l => f.file.getD l.toNat 0)).foldl
            removeFirst f.file
          dirty := true } (lo + 1) = true := by
      simp only [FileBuffer.OOB, Bool.or_eq_true, decide_eq_true_eq, hlen]
      omega
    rw [this, if_pos rfl]

/-- C2 amended witness: deleting lines 0..1 of [a, b, c] keeps only the last
line, sets dirty, and the current address collapses to 0 because 1 is past
the end of the one-line view. -/
theorem delete_spec_witness :
    bufABC.Delete (0, 1) = .ok
      { buffer := ["a", "b", "c"]
        file := [2]
        dirty := true
        addr := if (0 : Int) + 1 < (bufABC.Len : Int) - (1 - 0 + 1) then 0 + 1 else 0
        marks := [] } :=
  delete_spec bufABC 0 1 (by decide) (by decide) (by decide) (by decide)

/-! ## C3: move to address 0 -/

/-- C3: evaluating cmdMove at the failing input (the transcript 1,3m0 on
the buffer [a, b, c], i.e. source range (0, 2) and resolved destination
sentinel -1): the code rewrites the sentinel to 0 before the own-range
check, so it reports "cannot move lines to within their own range" (with
the current address left at 2 by Get) instead of succeeding with the
buffer unchanged. -/
theorem move_to_zero_fails :
    cmdMove bufABC [0, 2] [-1] true
      = ({ buffer := ["a", "b", "c"], file := [0, 1, 2], dirty := false,
           addr := 2, marks := [] }, some .moveRange) := by
  decide

/-! ## C5: read at address 0 -/

/-- C5: the read command at address 0 (`0r FILE`, which resolves to the
sentinel -1) always fails out of bounds: cmdEdit validates the address with
AddrValue before the `r` branch can run, and AddrValue rejects -1. -/
theorem read_at_zero_oob (fb : FileBuffer) (fileExists : Bool)
    (fileLines : List String) (fSuppress : Bool) :
    cmdEdit fb [-1] 'r' fileExists fileLines fSuppress = .error .oob := by
  simp [cmdEdit, FileBuffer.AddrValue, FileBuffer.OOB]

/-! ## C4: dirty flag transitions -/

/-- Dirty monotonicity across one step: the flag is set or carried over,
never silently cleared. -/
def DirtyMono (f f' : FileBuffer) : Prop := f'.dirty = true ∨ f'.dirty = f.dirty

theorem DirtyMono.refl (f : FileBuffer) : DirtyMono f f := Or.inr rfl

theorem DirtyMono.trans {f g h : FileBuffer} (h1 : DirtyMono f g) (h2 : DirtyMono g h) :
    DirtyMono f h := by
  rcases h2 with h2 | h2
  · exact Or.inl h2
  · rcases h1 with h1 | h1
    · exact Or.inl (h2.trans h1)
    · exact Or.inr (h2.trans h1)

/-- A successful Delete always sets the dirty flag. -/
theorem Delete_dirty {f : FileBuffer} {r : Int × Int} {f' : FileBuffer}
    (h : f.Delete r = .ok f') : f'.dirty = true := by
  unfold FileBuffer.Delete at h
  split at h
  · exact absurd h (by simp)
  · simp only [Except.ok.injEq] at h
    subst h
    rfl

/-- A successful Insert sets the dirty flag or returns the buffer unchanged
(empty line list). -/
theorem Insert_dirty {f : FileBuffer} {l : Int} {ns : List String} {f' : FileBuffer}
    (h : f.Insert l ns = .ok f') : f'.dirty = true ∨ f' = f := by
  unfold FileBuffer.Insert at h
  split at h
  · exact absurd h (by simp)
  · split at h
    · right
      simp only [Except.ok.injEq] at h
      exact h.symm
    · left
      simp only [Except.ok.injEq] at h
      subst h
      rfl

/-- Get only moves the current address. -/
theorem Get_dirty {f : FileBuffer} {r : Int × Int} {f' : FileBuffer} {ls : List String}
    (h : f.Get r = .ok (f', ls)) : f'.dirty = f.dirty := by
  unfold FileBuffer.Get at h
  split at h
  · exact absurd h (by simp)
  · simp only [Except.ok.injEq, Prod.mk.injEq] at h
    rw [← h.1]
    split <;> rfl

theorem Insert_mono {f : FileBuffer} {l : Int} {ns : List String} {f' : FileBuffer}
    (h : f.Insert l ns = .ok f') : DirtyMono f f' := by
  rcases Insert_dirty h with h1 | h1
  · exact Or.inl h1
  · exact Or.inr (by rw [h1])

/-- Delete with the error discarded (as cmdSub and cmdInput do). -/
theorem deleteD_mono (f : FileBuffer) (r : Int × Int) :
    DirtyMono f ((f.Delete r).toOption.getD f) := by
  cases h : f.Delete r with
  | error e => exact Or.inr rfl
  | ok f2 =>
    left
    simpa [Except.toOption] using Delete_dirty h

/-- Insert with the error discarded (as cmdSub does). -/
theorem insertD_mono (f : FileBuffer) (l : Int) (ns : List String) :
    DirtyMono f ((f.Insert l ns).toOption.getD f) := by
  cases h : f.Insert l ns with
  | error e => exact Or.inr rfl
  | ok f2 =>
    rcases Insert_dirty h with h1 | h1 <;>
      simp [Except.toOption, h1, DirtyMono]

/-- The substitution line loop never clears the dirty flag. -/
theorem subLoop_mono (matcher : String → List (List Int)) (repC : List Char)
    (refs : List (Nat × Nat × Nat × Nat)) :
    ∀ (b : List String) (ln : Nat) (fb : FileBuffer) (last : String) (nM : Nat),
    DirtyMono fb (subLoop matcher repC refs b ln fb last nM).1 := by
  intro b
  induction b with
  | nil => intro ln fb last nM; exact DirtyMono.refl fb
  | cons l rest ih =>
    intro ln fb last nM
    simp only [subLoop]
    split
    · split
      · exact DirtyMono.refl fb
      · exact ((deleteD_mono fb _).trans (insertD_mono _ _ _)).trans (ih _ _ _ _)
    · exact ih _ _ _ _

/-- cmdSub never clears the dirty flag (whatever it returns). -/
theorem cmdSub_mono (fb : FileBuffer) (addrs : List Int) (rep : String)
    (matcher : String → List (List Int)) :
    DirtyMono fb (cmdSub fb addrs rep matcher).1 := by
  unfold cmdSub
  split
  · exact DirtyMono.refl fb
  · rename_i r heq
    dsimp only
    rcases hg2 : (match fb.Get r with
      | Except.ok q => q
      | Except.error _ => (fb, [])) with ⟨pf, pl⟩
    have hget : DirtyMono fb pf := by
      cases hg : fb.Get r with
      | error e =>
        rw [hg] at hg2
        dsimp only at hg2
        injection hg2 with h1 h2
        subst h1
        exact DirtyMono.refl fb
      | ok q =>
        rw [hg] at hg2
        dsimp only at hg2
        subst hg2
        exact Or.inr (Get_dirty hg)
    rw [hg2]
    dsimp only
    have hmain : DirtyMono fb (subLoop matcher rep.toList
        (findBackrefs (sanitizeBackslashPairs rep.toList) 0) pl 0 pf "" 0).1 :=
      hget.trans (subLoop_mono _ _ _ _ _ _ _ _)
    rcases hsub : subLoop matcher rep.toList
        (findBackrefs (sanitizeBackslashPairs rep.toList) 0) pl 0 pf "" 0 with ⟨fb2, res⟩
    rw [hsub] at hmain
    cases res with
    | error e => exact hmain
    | ok q =>
      obtain ⟨last, nM⟩ := q
      dsimp only
      split <;> exact hmain

/-- The shared tail of cmdMove never clears the dirty flag. -/
theorem cmdMoveFinish_mono (fb1 : FileBuffer) (r : Int × Int) (dest app : Int)
    (lines : List String) (isMove : Bool) :
    DirtyMono fb1 (cmdMoveFinish fb1 r dest app lines isMove).1 := by
  unfold cmdMoveFinish
  cases h : fb1.Insert (dest + app) lines with
  | error e => exact DirtyMono.refl fb1
  | ok fb2 =>
    have h2 : DirtyMono fb1 fb2 := Insert_mono h
    cases isMove with
    | false => simpa using h2
    | true =>
      simp only [if_true]
      cases h3 : fb2.Delete r with
      | error e => exact h2
      | ok fb3 => exact h2.trans (Or.inl (Delete_dirty h3))

/-- cmdMove never clears the dirty flag. -/
theorem cmdMove_mono (fb : FileBuffer) (addrs destAddrs : List Int) (isMove : Bool) :
    DirtyMono fb (cmdMove fb addrs destAddrs isMove).1 := by
  unfold cmdMove
  split
  · exact DirtyMono.refl fb
  · dsimp only
    split
    · exact DirtyMono.refl fb
    · split
      · exact DirtyMono.refl fb
      · rename_i fb1 lines hg
        have h1 : DirtyMono fb fb1 := Or.inr (Get_dirty hg)
        split
        · exact h1.trans (cmdMoveFinish_mono _ _ _ _ _ _)
        · split
          · exact h1.trans (cmdMoveFinish_mono _ _ _ _ _ _)
          · exact h1

/-- cmdInput never clears the dirty flag. -/
theorem cmdInput_mono (fb : FileBuffer) (c : Char) (addrs : List Int)
    (nbuf : List String) : DirtyMono fb (cmdInput fb c addrs nbuf).1 := by
  unfold cmdInput
  split
  · exact DirtyMono.refl fb
  · split
    · split
      · exact DirtyMono.refl fb
      · cases h : fb.Insert _ nbuf with
        | error e => exact DirtyMono.refl fb
        | ok fb1 => exact Insert_mono h
    · split
      · split
        · exact DirtyMono.refl fb
        · cases h : fb.Insert _ nbuf with
          | error e => exact DirtyMono.refl fb
          | ok fb1 => exact Insert_mono h
      · split
        · exact DirtyMono.refl fb
        · rename_i r _
          dsimp only
          have h1 : DirtyMono fb ((fb.Delete r).toOption.getD fb) := deleteD_mono fb r
          cases h : ((fb.Delete r).toOption.getD fb).Insert r.1 nbuf with
          | error e => exact h1
          | ok fb2 => exact h1.trans (Insert_mono h)

/-- cmdJoin never clears the dirty flag. -/
theorem cmdJoin_mono (fb : FileBuffer) (addrs : List Int) :
    DirtyMono fb (cmdJoin fb addrs).1 := by
  unfold cmdJoin
  split
  · exact DirtyMono.refl fb
  · split
    · exact DirtyMono.refl fb
    · dsimp only
      cases h : fb.Delete _ with
      | error e => exact DirtyMono.refl fb
      | ok fb1 =>
        dsimp only
        have h1 : DirtyMono fb fb1 := Or.inl (Delete_dirty h)
        cases h2 : fb1.Insert _ _ with
        | error e => exact h1
        | ok fb2 => exact h1.trans (Insert_mono h2)

/-- cmdPrint only moves the current address. -/
theorem cmdPrint_dirty (fb : FileBuffer) (addrs : List Int) :
    (cmdPrint fb addrs).1.dirty = fb.dirty := by
  unfold cmdPrint
  split
  · rfl
  · rename_i r _
    have hfold : ∀ (ls : List Int) (g : FileBuffer),
        (ls.foldl (fun f l => (f.GetMust l true).1) g).dirty = g.dirty := by
      intro ls
      induction ls with
      | nil => intro g; rfl
      | cons x xs ih => intro g; rw [List.foldl_cons]; exact ih _
    exact hfold _ _

/-- cmdMark only touches the mark table. -/
theorem cmdMark_dirty (fb : FileBuffer) (c : Char) (addrs : List Int) :
    (cmdMark fb c addrs).1.dirty = fb.dirty := by
  unfold cmdMark
  split
  · rfl
  · rename_i l heq
    cases hs : fb.SetMark c l with
    | error e => rfl
    | ok fb1 =>
      have hd : fb1.dirty = fb.dirty := by
        unfold FileBuffer.SetMark at hs
        split at hs
        · simp at hs
        · simp only [Except.ok.injEq] at hs
          rw [← hs]
      exact hd

/-- A successful cmdWrite always ends on a clean buffer. -/
theorem cmdWrite_dirty {fb : FileBuffer} {addrs : Option (List Int)} {fb' : FileBuffer}
    (h : cmdWrite fb addrs = (fb', none)) : fb'.dirty = false := by
  unfold cmdWrite at h
  split at h
  · dsimp only at h
    cases hg : fb.Get (0, (fb.Len : Int) - 1) with
    | error e => rw [hg] at h; simp at h
    | ok p =>
      obtain ⟨fb1, ls⟩ := p
      rw [hg] at h
      dsimp only at h
      injection h with h1 h2
      rw [← h1]
      rfl
  · dsimp only at h
    split at h
    · simp at h
    · rename_i r heq
      cases hg : fb.Get r with
      | error e => rw [hg] at h; simp at h
      | ok p =>
        obtain ⟨fb1, ls⟩ := p
        rw [hg] at h
        dsimp only at h
        injection h with h1 h2
        rw [← h1]
        rfl

/-- C4 counterexample buffer: a dirty two-line view over a three-line pool. -/
def bufDirty : FileBuffer :=
  { buffer := ["a", "b", "c"], file := [1, 2], dirty := true, addr := 0, marks := [] }

/-- C4 counterexample: on a dirty two-line view, a successful `w` of the
proper sub-range (0, 0) clears the dirty flag, so a sub-range write does
not leave the flag set as the claim demands. -/
theorem write_subrange_clears_dirty :
    bufDirty.dirty = true
      ∧ (0 : Int) < (bufDirty.Len : Int) - 1
      ∧ (applyCmd (.write (some [0, 0])) bufDirty).2 = none
      ∧ (applyCmd (.write (some [0, 0])) bufDirty).1.dirty = false := by
  refine ⟨rfl, by decide, ?_, ?_⟩ <;> decide

/-- C4 amended: in one dispatched step of the src-backed commands (undo
aside: its Rewind is not under src/), the dirty flag changes from false to
true only through a mutating command, and changes from true to false only
through a successful write — of any range, since cmdWrite calls Clean
unconditionally — or an edit load. -/
theorem dirty_transitions (c : Cmd) (fb fb' : FileBuffer)
    (hne : c ≠ Cmd.undo) (h : applyCmd c fb = (fb', none)) :
    (fb.dirty = false → fb'.dirty = true → c.isMutating = true)
    ∧ (fb.dirty = true → fb'.dirty = false → c.isWriteOrLoad = true) := by
  have hfst : applyCmd c fb = (fb', none) → (applyCmd c fb).1 = fb' := by
    intro hh; rw [hh]
  cases c with
  | delete addrs =>
    refine ⟨fun _ _ => rfl, fun h1 h2 => ?_⟩
    have hm : DirtyMono fb fb' := by
      rw [← hfst h]
      simp only [applyCmd]
      split
      · exact DirtyMono.refl fb
      · split
        · exact DirtyMono.refl fb
        · rename_i fb1 hd
          exact Or.inl (Delete_dirty hd)
    rcases hm with hm | hm
    · rw [hm] at h2; simp at h2
    · rw [hm, h1] at h2; simp at h2
  | insertCmd app addrs lines =>
    refine ⟨fun _ _ => rfl, fun h1 h2 => ?_⟩
    have hm : DirtyMono fb fb' := by
      rw [← hfst h]; exact cmdInput_mono fb _ addrs lines
    rcases hm with hm | hm
    · rw [hm] at h2; simp at h2
    · rw [hm, h1] at h2; simp at h2
  | change addrs lines =>
    refine ⟨fun _ _ => rfl, fun h1 h2 => ?_⟩
    have hm : DirtyMono fb fb' := by
      rw [← hfst h]; exact cmdInput_mono fb _ addrs lines
    rcases hm with hm | hm
    · rw [hm] at h2; simp at h2
    · rw [hm, h1] at h2; simp at h2
  | print addrs =>
    have hp : fb'.dirty = fb.dirty := by
      rw [← hfst h]; exact cmdPrint_dirty fb addrs
    refine ⟨fun h1 h2 => ?_, fun h1 h2 => ?_⟩ <;> rw [hp, h1] at h2 <;> simp at h2
  | join addrs =>
    refine ⟨fun _ _ => rfl, fun h1 h2 => ?_⟩
    have hm : DirtyMono fb fb' := by
      rw [← hfst h]; exact cmdJoin_mono fb addrs
    rcases hm with hm | hm
    · rw [hm] at h2; simp at h2
    · rw [hm, h1] at h2; simp at h2
  | move addrs dests isMove =>
    refine ⟨fun _ _ => rfl, fun h1 h2 => ?_⟩
    have hm : DirtyMono fb fb' := by
      rw [← hfst h]; exact cmdMove_mono fb addrs dests isMove
    rcases hm with hm | hm
    · rw [hm] at h2; simp at h2
    · rw [hm, h1] at h2; simp at h2
  | subst addrs rep matcher =>
    refine ⟨fun _ _ => rfl, fun h1 h2 => ?_⟩
    have hm : DirtyMono fb fb' := by
      rw [← hfst h]
      simp only [applyCmd]
      split <;> rename_i heq
      · have := cmdSub_mono fb addrs rep matcher
        rw [heq] at this
        exact this
      · have := cmdSub_mono fb addrs rep matcher
        rw [heq] at this
        exact this
    rcases hm with hm | hm
    · rw [hm] at h2; simp at h2
    · rw [hm, h1] at h2; simp at h2
  | write addrs =>
    refine ⟨fun _ h2 => ?_, fun _ _ => rfl⟩
    have hw : fb'.dirty = false := cmdWrite_dirty (by simpa only [applyCmd] using h)
    rw [hw] at h2
    simp at h2
  | editLoad force contents =>
    refine ⟨fun _ h2 => ?_, fun _ _ => rfl⟩
    have hw : fb'.dirty = false := by
      simp only [applyCmd] at h
      split at h
      · simp at h
      · simp only [Prod.mk.injEq] at h
        rw [← h.1]
        rfl
    rw [hw] at h2
    simp at h2
  | markCmd ch addrs =>
    have hp : fb'.dirty = fb.dirty := by
      rw [← hfst h]; exact cmdMark_dirty fb ch addrs
    refine ⟨fun h1 h2 => ?_, fun h1 h2 => ?_⟩ <;> rw [hp, h1] at h2 <;> simp at h2
  | undo => exact absurd rfl hne

/-- C4 amended witness: deleting line 0 of the clean buffer [a, b, c]
succeeds, turns the dirty flag on, and delete is indeed mutating. -/
theorem dirty_transitions_witness :
    applyCmd (.delete [0]) bufABC
        = ({ buffer := ["a", "b", "c"], file := [1, 2], dirty := true, addr := 1,
             marks := [] }, none)
      ∧ (Cmd.delete [0]).isMutating = true :=
  ⟨by decide,
   (dirty_transitions (.delete [0]) bufABC
      { buffer := ["a", "b", "c"], file := [1, 2], dirty := true, addr := 1, marks := [] }
      (by simp) (by decide)).1 (by decide) (by decide)⟩

/-! ## C6: substitution with no match, and success -/

/-- goSlice succeeds exactly on an in-bounds slice. -/
theorem goSlice_some {s : List Char} {a b : Int} (h1 : 0 ≤ a) (h2 : a ≤ b)
    (h3 : b ≤ (s.length : Int)) :
    goSlice s a b = some ((s.drop a.toNat).take (b - a).toNat) := by
  rw [goSlice, if_pos ⟨h1, h2, h3⟩]

/-- The subject-line slices of the per-line rewrite are in bounds: from
the running offset `oLin`, each match array has at least its two
full-span entries, its full span starts no earlier than `oLin` and ends
inside the line, and the chain continues from its end — the shape Go's
FindAllStringSubmatchIndex guarantees for its list of matches. -/
def SpansChain (lLen : Int) : Int → List (List Int) → Prop
  | oLin, [] => 0 ≤ oLin ∧ oLin ≤ lLen
  | oLin, m :: rest =>
    2 ≤ m.length ∧ 0 ≤ oLin ∧ oLin ≤ m.getD 0 0 ∧ m.getD 0 0 ≤ lLen
      ∧ SpansChain lLen (m.getD 1 0) rest

/-- The in-range and participation condition cmdSub needs of one backref
quadruple `t` against one match array `m`: the parsed index is within the
match's group count, and the referenced group's span is an in-bounds
slice of the line (a group that did not participate has the span -1 -1,
which fails this and panics the program). -/
def RefOK (repC lC : List Char) (m : List Int) (t : Nat × Nat × Nat × Nat) : Prop :=
  ¬ ((digitsToNat (natSlice repC t.2.2.1 t.2.2.2) : Int) > (m.length : Int) / 2 - 1)
    ∧ 0 ≤ m.getD (2 * digitsToNat (natSlice repC t.2.2.1 t.2.2.2)) 0
    ∧ m.getD (2 * digitsToNat (natSlice repC t.2.2.1 t.2.2.2)) 0
        ≤ m.getD (2 * digitsToNat (natSlice repC t.2.2.1 t.2.2.2) + 1) 0
    ∧ m.getD (2 * digitsToNat (natSlice repC t.2.2.1 t.2.2.2) + 1) 0 ≤ (lC.length : Int)

/-- The backref filling loop succeeds when every backref is in range and
references a participating group with an in-bounds span. -/
theorem fillBackrefs_ok (repC lC : List Char) (m : List Int) :
    ∀ (refs : List (Nat × Nat × Nat × Nat)), (∀ t ∈ refs, RefOK repC lC m t) →
    ∀ (oRep : Nat) (acc : List Char),
    ∃ out, fillBackrefs repC lC m refs oRep acc = .ok out := by
  intro refs
  induction refs with
  | nil => intro _ oRep acc; exact ⟨_, rfl⟩
  | cons t rest ih =>
    intro h oRep acc
    obtain ⟨r0, r1, r2, r3⟩ := t
    obtain ⟨hcnt, hs1, hs2, hs3⟩ := h _ (List.mem_cons_self _ _)
    simp only [fillBackrefs]
    rw [if_neg hcnt, goSlice_some hs1 hs2 hs3]
    exact ih (fun u hu => h u (List.mem_cons_of_mem _ hu)) _ _

/-- The per-line rewrite succeeds when every backref of every match is in
range and participating, and the match spans chain left to right inside
the line. -/
theorem rewriteLine_ok (repC lC : List Char) (refs : List (Nat × Nat × Nat × Nat)) :
    ∀ (ms : List (List Int)), (∀ m ∈ ms, ∀ t ∈ refs, RefOK repC lC m t) →
    ∀ (oLin : Int) (fLin : List Char), SpansChain (lC.length : Int) oLin ms →
    ∃ out, rewriteLine repC lC refs ms oLin fLin = .ok out := by
  intro ms
  induction ms with
  | nil =>
    intro _ oLin fLin hchain
    obtain ⟨hc1, hc2⟩ := hchain
    simp only [rewriteLine]
    rw [goSlice_some hc1 hc2 (le_refl _)]
    exact ⟨_, rfl⟩
  | cons m rest ih =>
    intro h oLin fLin hchain
    obtain ⟨hm2, hc1, hc2, hc3, hrest⟩ := hchain
    simp only [rewriteLine]
    obtain ⟨out1, hout1⟩ := fillBackrefs_ok repC lC m refs (h m (List.mem_cons_self _ _)) 0 []
    rw [hout1]
    dsimp only
    rw [if_pos hm2, goSlice_some hc1 hc2 hc3]
    exact ih (fun m' hm' => h m' (List.mem_cons_of_mem _ hm')) _ _ hrest

/-- When no line of the fetched range has a match, the substitution loop is
the identity on the buffer and keeps the running count. -/
theorem subLoop_all_nomatch (matcher : String → List (List Int)) (repC : List Char)
    (refs : List (Nat × Nat × Nat × Nat)) :
    ∀ (b : List String), (∀ l ∈ b, matcher l = []) →
    ∀ (ln : Nat) (fb : FileBuffer) (last : String) (nM : Nat),
    subLoop matcher repC refs b ln fb last nM = (fb, .ok (last, nM)) := by
  intro b
  induction b with
  | nil => intro _ ln fb last nM; rfl
  | cons l rest ih =>
    intro h ln fb last nM
    simp only [subLoop, h l (List.mem_cons_self _ _), List.length_nil]
    exact ih (fun l' hl' => h l' (List.mem_cons_of_mem _ hl')) _ _ _ _

/-- When every backref of every match of every line is in range and
participating and every line's match spans chain inside it, the
substitution loop succeeds and adds the total number of matches to the
running count. -/
theorem subLoop_ok (matcher : String → List (List Int)) (repC : List Char)
    (refs : List (Nat × Nat × Nat × Nat)) :
    ∀ (b : List String),
    (∀ l ∈ b, ∀ m ∈ matcher l, ∀ t ∈ refs, RefOK repC l.toList m t) →
    (∀ l ∈ b, SpansChain (l.toList.length : Int) 0 (matcher l)) →
    ∀ (ln : Nat) (fb : FileBuffer) (last : String) (nM : Nat),
    ∃ fb2 last2, subLoop matcher repC refs b ln fb last nM
      = (fb2, .ok (last2, nM + (b.map (fun x => (matcher x).length)).sum)) := by
  intro b
  induction b with
  | nil => intro _ _ ln fb last nM; exact ⟨fb, last, by simp [subLoop]⟩
  | cons l rest ih =>
    intro h hsp ln fb last nM
    simp only [subLoop, List.map_cons, List.sum_cons]
    by_cases hm : (matcher l).length > 0
    · rw [if_pos hm]
      obtain ⟨out, hout⟩ := rewriteLine_ok repC l.toList refs (matcher l)
        (fun m hm' => h l (List.mem_cons_self _ _) m hm') 0 []
        (hsp l (List.mem_cons_self _ _))
      rw [hout]
      dsimp only
      obtain ⟨fb2, last2, hrec⟩ := ih (fun l' hl' => h l' (List.mem_cons_of_mem _ hl'))
        (fun l' hl' => hsp l' (List.mem_cons_of_mem _ hl'))
        (ln + 1)
        ((((((fb.Delete ((ln : Int), (ln : Int))).toOption).getD fb).Insert (ln : Int)
          [String.mk out]).toOption).getD
          (((fb.Delete ((ln : Int), (ln : Int))).toOption).getD fb))
        (String.mk out) (nM + (matcher l).length)
      refine ⟨fb2, last2, ?_⟩
      rw [← Nat.add_assoc]
      exact hrec
    · rw [if_neg hm]
      have hz : (matcher l).length = 0 := by omega
      rw [hz, Nat.zero_add]
      exact ih (fun l' hl' => h l' (List.mem_cons_of_mem _ hl'))
        (fun l' hl' => hsp l' (List.mem_cons_of_mem _ hl')) (ln + 1) fb last nM

/-- C6 counterexample: on [a, b, c] with current address 0, a substitution
over the full range whose pattern matches nothing fails with no-match but
moves the current address to 2 (Get runs before the loop), so the buffer is
not left unchanged. -/
theorem sub_nomatch_moves_addr :
    (cmdSub bufABC [0, 2] "x" (fun _ => [])).2 = .error .noMatch
      ∧ (cmdSub bufABC [0, 2] "x" (fun _ => [])).1.addr = 2
      ∧ bufABC.addr = 0 :=
  ⟨rfl, rfl, rfl⟩

/-- The success conditions of sub_spec are not vacuous strengthened
bureaucracy: with the matcher output Go's engine produces for the pattern
(a)|(b) against the line "b" — full span 0..1, group 1 not participating
(span -1 -1), group 2 with span 0..1 — the replacement backref \1 is
within the group count, yet the program hits the Go slice-bounds panic on
the -1 -1 span instead of succeeding. -/
theorem sub_nonparticipating_group_panics :
    cmdSub (NewFileBuffer ["b"]) [0] "\x5c1" (fun _ => [[0, 1, -1, -1, 0, 1]])
      = ({ NewFileBuffer ["b"] with addr := 0 }, .error .panicked) := rfl

/-- C6 amended: for a resolved range `(lo, hi)` inside the view, if the
matcher finds nothing on any line of the range, cmdSub fails with no-match
and leaves the view and dirty flag unchanged but sets the current address
to `hi`. If at least one line has a match, every backref parsed from the
replacement is within every match's group count and references a
participating group with an in-bounds span, and every line's match spans
chain left to right inside the line (as Go's regexp engine guarantees),
then cmdSub succeeds; with a backref to a non-participating group the
program instead crashes on the Go slice panic. -/
theorem sub_spec (fb : FileBuffer) (lo hi : Int) (rep : String)
    (matcher : String → List (List Int)) (addrs : List Int)
    (hr : fb.AddrRangeOrLine addrs = .ok (lo, hi))
    (h0 : 0 ≤ lo) (hlh : lo ≤ hi) (hhi : hi < (fb.Len : Int)) :
    ((∀ l ∈ (intRange lo hi).map fb.lineAt, matcher l = []) →
      cmdSub fb addrs rep matcher = ({ fb with addr := hi }, .error .noMatch))
    ∧ ((∃ l ∈ (intRange lo hi).map fb.lineAt, matcher l ≠ []) →
       (∀ l ∈ (intRange lo hi).map fb.lineAt, ∀ m ∈ matcher l,
          ∀ t ∈ findBackrefs (sanitizeBackslashPairs rep.toList) 0,
          RefOK rep.toList l.toList m t) →
       (∀ l ∈ (intRange lo hi).map fb.lineAt,
          SpansChain (l.toList.length : Int) 0 (matcher l)) →
      ∃ last, (cmdSub fb addrs rep matcher).2 = .ok last) := by
  simp only [FileBuffer.Len] at hhi
  have hget : fb.Get (lo, hi) = .ok ({ fb with addr := hi }, (intRange lo hi).map fb.lineAt) := by
    unfold FileBuffer.Get
    dsimp only
    rw [if_neg, if_pos hlh]
    simp only [FileBuffer.OOB, Bool.or_eq_true, decide_eq_true_eq]
    omega
  constructor
  · intro hno
    unfold cmdSub
    rw [hr]
    dsimp only
    rw [hget]
    dsimp only
    rw [subLoop_all_nomatch _ _ _ _ hno]
    rfl
  · intro hex hbound hchain
    unfold cmdSub
    rw [hr]
    dsimp only
    rw [hget]
    dsimp only
    obtain ⟨fb2, last2, hloop⟩ := subLoop_ok matcher rep.toList _
      ((intRange lo hi).map fb.lineAt) hbound hchain 0 { fb with addr := hi } "" 0
    rw [hloop]
    dsimp only
    have hpos : 0 < (((intRange lo hi).map fb.lineAt).map
        (fun x => (matcher x).length)).sum := by
      obtain ⟨l, hl, hne⟩ := hex
      have hmem : (matcher l).length ∈ ((intRange lo hi).map fb.lineAt).map
          (fun x => (matcher x).length) := List.mem_map_of_mem _ hl
      have hlen : 0 < (matcher l).length := List.length_pos.mpr hne
      have := List.single_le_sum (l := ((intRange lo hi).map fb.lineAt).map
          (fun x => (matcher x).length)) (fun x _ => Nat.zero_le x) _ hmem
      omega
    rw [if_neg (by omega)]
    exact ⟨last2, rfl⟩

/-- C6 witness: the amended no-match half evaluated on [a, b, c], range
(0, 2), a matcher with no matches: the result is the no-match error with
the address moved to 2. -/
theorem sub_spec_witness :
    cmdSub bufABC [0, 2] "x" (fun _ => [])
      = ({ bufABC with addr := 2 }, .error .noMatch) :=
  (sub_spec bufABC 0 2 "x" (fun _ => []) [0, 2] rfl (by decide) (by decide)
    (by decide)).1 (fun l _ => rfl)

/-! ## C7: forward regex search -/

/-- The regex search loop of ResolveAddr (ged.go): probe
`(sign*i + addr + N) % N` for `i = 0 .. N-1` and return the first matching
line. The compiled pattern's MatchString is the parameter `p` (host regexp
boundary), `Int.tmod` is Go's `%` on ints. The remaining iteration count
`N - i` is carried as an explicit first argument (`fuel`) to make the
recursion structural; `searchLoop` supplies `N`, which makes the function
exactly Go's `for i := 0; i < N; i++` loop. -/
def searchAux (f : FileBuffer) (sign : Int) (p : String → Bool) :
    Nat → Nat → Option Int
  | 0, _ => none
  | fuel + 1, i =>
    if i < f.Len then
      let c := Int.tmod (sign * (i : Int) + f.GetAddr + (f.Len : Int)) (f.Len : Int)
      if p (f.GetMust c false).2 then some c
      else searchAux f sign p fuel (i + 1)
    else none

/-- The search of the `/re/` and `?re?` branch of ResolveAddr. -/
def searchLoop (f : FileBuffer) (sign : Int) (p : String → Bool) : Option Int :=
  searchAux f sign p f.Len 0

/-- Characterization of the forward search tail starting at probe `i0`. -/
theorem searchAux_char (f : FileBuffer) (p : String → Bool) (h0 : 0 ≤ f.addr) :
    ∀ (d i0 : Nat), f.Len - i0 = d →
    (∀ c, searchAux f 1 p d i0 = some c → p (f.lineAt c) = true
        ∧ ∃ i : Nat, i0 ≤ i ∧ i < f.Len ∧ c = (f.addr + i) % (f.Len : Int)
          ∧ ∀ j : Nat, i0 ≤ j → j < i →
              p (f.lineAt ((f.addr + j) % (f.Len : Int))) = false)
    ∧ (searchAux f 1 p d i0 = none →
        ∀ j : Nat, i0 ≤ j → j < f.Len →
          p (f.lineAt ((f.addr + j) % (f.Len : Int))) = false) := by
  have hcz : ∀ i : Nat, Int.tmod (1 * (i : Int) + f.GetAddr + (f.Len : Int)) (f.Len : Int)
      = (f.addr + i) % (f.Len : Int) := by
    intro i
    rw [Int.tmod_eq_emod (by simp [FileBuffer.GetAddr]; omega) (by omega)]
    rw [show 1 * (i : Int) + f.GetAddr + (f.Len : Int)
      = (f.addr + i) + (f.Len : Int) * 1 from by simp [FileBuffer.GetAddr]; ring]
    rw [Int.add_mul_emod_self_left]
  intro d
  induction d with
  | zero =>
    intro i0 hd
    constructor
    · intro c hc
      exact absurd hc (by simp [searchAux])
    · intro _ j hj1 hj2
      omega
  | succ k ih =>
    intro i0 hd
    have hlt : i0 < f.Len := by omega
    by_cases hp : p (f.lineAt ((f.addr + i0) % (f.Len : Int))) = true
    · constructor
      · intro c hc
        rw [searchAux, if_pos hlt] at hc
        simp only [hcz i0, FileBuffer.GetMust, hp, if_true, Option.some.injEq] at hc
        subst hc
        exact ⟨hp, i0, le_refl i0, hlt, rfl, fun j hj1 hj2 => by omega⟩
      · intro hc
        rw [searchAux, if_pos hlt] at hc
        simp only [hcz i0, FileBuffer.GetMust, hp, if_true] at hc
        exact absurd hc (by simp)
    · have hp' : p (f.lineAt ((f.addr + i0) % (f.Len : Int))) = false := by
        revert hp
        cases p (f.lineAt ((f.addr + i0) % (f.Len : Int))) <;> simp
      constructor
      · intro c hc
        rw [searchAux, if_pos hlt] at hc
        simp only [hcz i0, FileBuffer.GetMust, hp', Bool.false_eq_true, if_false] at hc
        obtain ⟨hpc, i, hi1, hi2, hi3, hi4⟩ := (ih (i0 + 1) (by omega)).1 c hc
        refine ⟨hpc, i, by omega, hi2, hi3, fun j hj1 hj2 => ?_⟩
        rcases Nat.eq_or_lt_of_le hj1 with hj | hj
        · rw [← hj]; exact hp'
        · exact hi4 j (by omega) hj2
      · intro hc j hj1 hj2
        rw [searchAux, if_pos hlt] at hc
        simp only [hcz i0, FileBuffer.GetMust, hp', Bool.false_eq_true, if_false] at hc
        rcases Nat.eq_or_lt_of_le hj1 with hj | hj
        · rw [← hj]; exact hp'
        · exact (ih (i0 + 1) (by omega)).2 hc j (by omega) hj2

/-- C7: on a non-empty buffer with a valid current address, the forward
search examines lines in the modular order addr, addr+1, ..., wrapping from
N-1 to 0, and yields the first line whose content matches; when no line of
the view matches, the search fails (ResolveAddr then reports
regexp-not-found). -/
theorem search_forward_spec (f : FileBuffer) (p : String → Bool)
    (hN : 0 < f.Len) (h0 : 0 ≤ f.addr) (hA : f.addr < (f.Len : Int)) :
    (∀ c, searchLoop f 1 p = some c →
      p (f.lineAt c) = true
        ∧ ∃ i : Nat, i < f.Len ∧ c = (f.addr + i) % (f.Len : Int)
          ∧ ∀ j : Nat, j < i → p (f.lineAt ((f.addr + j) % (f.Len : Int))) = false)
    ∧ (searchLoop f 1 p = none → ∀ j : Nat, j < f.Len → p (f.lineAt j) = false) := by
  constructor
  · intro c hc
    obtain ⟨hpc, i, _, hi2, hi3, hi4⟩ :=
      (searchAux_char f p h0 f.Len 0 (by omega)).1 c hc
    exact ⟨hpc, i, hi2, hi3, fun j hj => hi4 j (Nat.zero_le j) hj⟩
  · intro hc j hj
    have hall := (searchAux_char f p h0 f.Len 0 (by omega)).2 hc
    have hNz : (f.Len : Int) ≠ 0 := by omega
    set i : Int := ((j : Int) - f.addr) % (f.Len : Int) with hi
    have hinn : 0 ≤ i := Int.emod_nonneg _ hNz
    have hilt : i < (f.Len : Int) := Int.emod_lt_of_pos _ (by omega)
    have hcover : (f.addr + i.toNat) % (f.Len : Int) = (j : Int) := by
      rw [Int.toNat_of_nonneg hinn, hi]
      conv_lhs => rw [Int.add_emod]
      rw [Int.emod_emod_of_dvd _ dvd_rfl, ← Int.add_emod]
      rw [show f.addr + ((j : Int) - f.addr) = (j : Int) from by ring]
      exact Int.emod_eq_of_lt (by omega) (by omega)
    have hj' := hall i.toNat (Nat.zero_le _) (by omega)
    rw [hcover] at hj'
    exact hj'

/-- C7 witness: on [a, b, c] with current address 1 and a pattern matching
exactly "a", the forward search wraps past the end and finds line 0, and
the lines probed before it at modular offsets 0 and 1 do not match. -/
theorem search_forward_spec_witness :
    searchLoop bufMid 1 (fun s => s == "a") = some 0
      ∧ ((fun s => s == "a") (bufMid.lineAt 0) = true
        ∧ ∃ i : Nat, i < bufMid.Len ∧ (0 : Int) = (bufMid.addr + i) % (bufMid.Len : Int)
          ∧ ∀ j : Nat, j < i →
            (fun s => s == "a") (bufMid.lineAt ((bufMid.addr + j) % (bufMid.Len : Int)))
              = false) :=
  ⟨by decide, (search_forward_spec bufMid (fun s => s == "a")
    (by decide) (by decide) (by decide)).1 0 (by decide)⟩

/-! ## C9: the address resolver and the default address

ResolveAddr and ResolveAddrs (ged.go) drive a handful of anchored regexes.
Their alternatives begin with pairwise disjoint characters, so the regex
scan is a case analysis on the first byte (`matchSingle` below); the two
search forms need a body scan with one backtracking fallback. Pattern
compilation (`regexp.Compile`) is a host boundary: the `compile` parameter
returns the compiled pattern's MatchString, or none for an invalid
pattern. -/

/-- The single-quote character (the mark prefix in addresses). -/
def quoteChar : Char := Char.ofNat 39

/-- The Go regexp whitespace class \s = tab, newline, form feed, carriage
return, space (rxWhitespace matches exactly one such byte). -/
def isGoSpace (c : Char) : Bool :=
  c = ' ' || c = Char.ofNat 9 || c = Char.ofNat 10 || c = Char.ofNat 12 || c = Char.ofNat 13

/-- wsOffset (ged.go): the end of the rxWhitespace match — one whitespace
byte — or 0. -/
def wsOffset (cmd : List Char) : Nat :=
  match cmd with
  | c :: _ => if isGoSpace c then 1 else 0
  | [] => 0

/-- Body-and-closing scan for the forward search form, the regex
/((?:\\/|[^/])*)/ after its opening delimiter, with leftmost-first
semantics: a backslash-slash pair is preferred as one body unit, a single
non-slash byte (including a backslash) is the fallback, and a reachable
bare slash closes. Returns how many bytes the body plus the closing
delimiter consume, or none when the regex cannot match. -/
def scanFwdBody : List Char → Option Nat
  | [] => none
  | '/' :: _ => some 1
  | '\\' :: '/' :: rest2 =>
    match scanFwdBody rest2 with
    | some n => some (n + 2)
    | none => some 2
  | _ :: rest =>
    match scanFwdBody rest with
    | some n => some (n + 1)
    | none => none

/-- Body-and-closing scan for the backward search form, the regex
?((?:\\?|[^?])*)? after its opening delimiter: the first alternative \\?
is an optional backslash (the ? is a quantifier), which a lone [^?] also
covers, so the body is simply every byte up to the first question mark. -/
def scanBwdBody : List Char → Option Nat
  | [] => none
  | '?' :: _ => some 1
  | _ :: rest =>
    match scanBwdBody rest with
    | some n => some (n + 1)
    | none => none

/-- One resolved rxSingle token. -/
inductive AddrToken where
  | dot
  | dollar
  | num (n : Nat)
  | offs (plus : Bool) (cnt : Option Nat)
  | mark (c : Char)
  | reFwd (pat : List Char)
  | reBwd (pat : List Char)

/-- The anchored rxSingle scan: its alternatives ([.$] | [0-9]+ |
[-+][0-9]? | quote [a-z] | the two search forms) begin with disjoint
characters, so the leftmost-first match is a case analysis on the first
byte. Returns the token and the number of bytes matched. -/
def matchSingle (cmd : List Char) : Option (AddrToken × Nat) :=
  match cmd with
  | [] => none
  | c :: rest =>
    if c = '.' then some (.dot, 1)
    else if c = '$' then some (.dollar, 1)
    else if c.isDigit then
      let ds := (c :: rest).takeWhile Char.isDigit
      some (.num (digitsToNat ds), ds.length)
    else if c = '+' || c = '-' then
      let ds := rest.takeWhile Char.isDigit
      if ds.length > 0 then some (.offs (c = '+') (some (digitsToNat ds)), 1 + ds.length)
      else some (.offs (c = '+') none, 1)
    else if c = quoteChar then
      match rest with
      | m :: _ => if 'a' ≤ m && m ≤ 'z' then some (.mark m, 2) else none
      | [] => none
    else if c = '/' then
      match scanFwdBody rest with
      | some n => some (.reFwd (rest.take (n - 1)), 1 + n)
      | none => none
    else if c = '?' then
      match scanBwdBody rest with
      | some n => some (.reBwd (rest.take (n - 1)), 1 + n)
      | none => none
    else none

/-- ResolveOffset (ged.go): the anchored rxOff scan — one or more
whitespace bytes, then either a bare number (an absolute increment) or a
signed offset with an optional count defaulting to 1. Returns the offset
and the number of bytes consumed, (0, 0) when there is no match. -/
def ResolveOffset (cmd : List Char) : Int × Nat :=
  let ws := cmd.takeWhile isGoSpace
  if ws.length = 0 then (0, 0)
  else
    let after := cmd.drop ws.length
    let ds := after.takeWhile Char.isDigit
    if ds.length > 0 then ((digitsToNat ds : Int), ws.length + ds.length)
    else
      match after with
      | '+' :: r2 =>
        let ds2 := r2.takeWhile Char.isDigit
        if ds2.length > 0 then ((digitsToNat ds2 : Int), ws.length + 1 + ds2.length)
        else (1, ws.length + 1)
      | '-' :: r2 =>
        let ds2 := r2.takeWhile Char.isDigit
        if ds2.length > 0 then (-(digitsToNat ds2 : Int), ws.length + 1 + ds2.length)
        else (-1, ws.length + 1)
      | _ => (0, 0)

/-- The offset loop at the end of ResolveAddr: apply ResolveOffset to the
rest of the command repeatedly, adding into the line, until it consumes
nothing. Every successful match consumes at least two bytes, so the fuel
supplied by ResolveAddr (the command length plus one) never runs dry. -/
def offsetsLoop (line : Int) (cmd : List Char) (cmdOffset : Nat) : Nat → Int × Nat
  | 0 => (line, cmdOffset)
  | fuel + 1 =>
    let r := ResolveOffset (cmd.drop cmdOffset)
    if r.2 > 0 then offsetsLoop (line + r.1) cmd (cmdOffset + r.2) fuel
    else (line, cmdOffset)

/-- ResolveAddr (ged.go): resolve one address token and its trailing
offsets against the buffer. With no token at all the current address is
returned with zero bytes consumed. The search forms return their match
directly (the Go code returns from inside the scan loop, skipping the
offset loop) or fail; a failed compile is the invalid-regexp error. -/
def ResolveAddr (f : FileBuffer) (compile : List Char → Option (String → Bool))
    (cmd : List Char) : Except EdError (Int × Nat) :=
  match matchSingle cmd with
  | none => .ok (f.GetAddr, 0)
  | some (tok, len) =>
    match tok with
    | .dot => .ok (offsetsLoop f.GetAddr cmd len (cmd.length + 1))
    | .dollar => .ok (offsetsLoop ((f.Len : Int) - 1) cmd len (cmd.length + 1))
    | .num n => .ok (offsetsLoop ((n : Int) - 1) cmd len (cmd.length + 1))
    | .offs plus cnt =>
      let line := if plus then f.GetAddr + (cnt.getD 1 : Nat)
        else f.GetAddr - (cnt.getD 1 : Nat)
      .ok (offsetsLoop line cmd len (cmd.length + 1))
    | .mark c =>
      match f.GetMark c with
      | .error e => .error e
      | .ok l => .ok (offsetsLoop l cmd len (cmd.length + 1))
    | .reFwd pat =>
      match compile pat with
      | none => .error .invalidRegexp
      | some p =>
        match searchLoop f 1 p with
        | some c => .ok (c, len)
        | none => .error .regexpNotFound
    | .reBwd pat =>
      match compile pat with
      | none => .error .invalidRegexp
      | some p =>
        match searchLoop f (-1) p with
        | some c => .ok (c, len)
        | none => .error .regexpNotFound

/-- The loop of ResolveAddrs (ged.go): while bytes remain, skip one
whitespace byte, resolve an address, append it, skip one whitespace byte,
and continue past a separator — a comma plainly, a semicolon after setting
the buffer's current address, a percent appending the full range and
returning. Anything else ends the loop. Each continuing iteration advances
the offset, so the fuel supplied by ResolveAddrs never runs dry. -/
def ResolveAddrsLoop (compile : List Char → Option (String → Bool))
    (cmd : List Char) :
    Nat → FileBuffer → List Int → Nat → Except EdError (FileBuffer × List Int × Nat)
  | 0, fb, lines, cmdOffset => .ok (fb, lines, cmdOffset)
  | fuel + 1, fb, lines, cmdOffset =>
    if cmdOffset < cmd.length then
      let o1 := cmdOffset + wsOffset (cmd.drop cmdOffset)
      match ResolveAddr fb compile (cmd.drop o1) with
      | .error e => .error e
      | .ok (line, off) =>
        let lines2 := lines ++ [line]
        let o2 := o1 + off
        let o3 := o2 + wsOffset (cmd.drop o2)
        if cmd.length - 1 ≤ o3 then .ok (fb, lines2, o3)
        else
          let ch := cmd.getD o3 ' '
          if ch = ',' then ResolveAddrsLoop compile cmd fuel fb lines2 (o3 + 1)
          else if ch = ';' then
            match fb.SetAddr line with
            | .error e => .error e
            | .ok fb2 => ResolveAddrsLoop compile cmd fuel fb2 lines2 (o3 + 1)
          else if ch = '%' then
            let lines3 := lines2 ++ [0, (fb.Len : Int) - 1]
            let o4 := o3 + 1
            .ok (fb, lines3, o4 + wsOffset (cmd.drop o4))
          else .ok (fb, lines2, o3)
    else .ok (fb, lines, cmdOffset)

/-- ResolveAddrs (ged.go): resolve every address at the beginning of a
command line; always yields at least one address when it does not error. -/
def ResolveAddrs (f : FileBuffer) (compile : List Char → Option (String → Bool))
    (cmd : List Char) : Except EdError (FileBuffer × List Int × Nat) :=
  ResolveAddrsLoop compile cmd (cmd.length + 1) f [] 0

/-- The bytes that play a part in address parsing: those that can begin an
rxSingle token (dot, dollar, a digit, plus, minus, the mark quote, the two
search delimiters), the separators, and whitespace. -/
def isAddrChar (c : Char) : Bool :=
  c = '.' || c = '$' || c.isDigit || c = '+' || c = '-' || c = quoteChar ||
    c = '/' || c = '?' || c = ',' || c = ';' || c = '%' || isGoSpace c

/-- A first byte that is not an address byte yields no rxSingle token. -/
theorem matchSingle_none {c : Char} (rest : List Char)
    (hna : isAddrChar c = false) : matchSingle (c :: rest) = none := by
  simp only [isAddrChar, Bool.or_eq_false_iff] at hna
  obtain ⟨⟨⟨⟨⟨⟨⟨⟨⟨⟨⟨h1, h2⟩, h3⟩, h4⟩, h5⟩, h6⟩, h7⟩, h8⟩, h9⟩, h10⟩, h11⟩, h12⟩ := hna
  simp only [matchSingle]
  rw [if_neg (by simp_all), if_neg (by simp_all)]
  rw [if_neg (by simp_all), if_neg (by simp_all), if_neg (by simp_all)]
  rw [if_neg (by simp_all), if_neg (by simp_all)]

/-- C9: for every non-empty command whose first byte is not an address
byte, ResolveAddrs succeeds, returns exactly one address — the buffer's
current address, which is in particular its last element — with the
command offset 0, leaving the buffer untouched: every address consumer
sees the current line as the default address. -/
theorem resolveAddrs_default (f : FileBuffer)
    (compile : List Char → Option (String → Bool)) (cmd : List Char)
    (hne : cmd ≠ []) (hna : isAddrChar (cmd.getD 0 ' ') = false) :
    ResolveAddrs f compile cmd = .ok (f, [f.addr], 0) := by
  cases cmd with
  | nil => exact absurd rfl hne
  | cons c rest =>
    have hna' : isAddrChar c = false := hna
    have hms : matchSingle (c :: rest) = none := matchSingle_none rest hna'
    have hra : ResolveAddr f compile (c :: rest) = .ok (f.GetAddr, 0) := by
      rw [ResolveAddr, hms]
    simp only [isAddrChar, Bool.or_eq_false_iff] at hna'
    obtain ⟨⟨⟨⟨⟨⟨⟨⟨⟨⟨⟨h1, h2⟩, h3⟩, h4⟩, h5⟩, h6⟩, h7⟩, h8⟩, h9⟩, h10⟩, h11⟩, h12⟩ := hna'
    have hws : wsOffset (c :: rest) = 0 := by
      simp only [wsOffset, h12, Bool.false_eq_true, if_false]
    show ResolveAddrsLoop compile (c :: rest) ((c :: rest).length + 1) f [] 0
      = .ok (f, [f.addr], 0)
    rw [show (c :: rest).length + 1 = rest.length + 1 + 1 from by simp]
    rw [ResolveAddrsLoop]
    rw [if_pos (by simp)]
    simp only [List.drop_zero, hws, Nat.add_zero, hra]
    simp only [List.nil_append, FileBuffer.GetAddr]
    cases rest with
    | nil =>
      rw [if_pos (by simp)]
    | cons c2 rest2 =>
      rw [if_neg (by simp)]
      simp only [List.getD_cons_zero]
      rw [if_neg (by simpa using h9), if_neg (by simpa using h10), if_neg (by simpa using h11)]

/-- C9 witness: the command "p" on [a, b, c] with current address 1
resolves to the single default address 1 at command offset 0. -/
theorem resolveAddrs_default_witness :
    ResolveAddrs bufMid (fun _ => none) ['p'] = .ok (bufMid, [1], 0) :=
  resolveAddrs_default bufMid (fun _ => none) ['p'] (by simp) (by decide)

/-! ## C1: undo toggles between the two most recent states -/

/-- C1: for any editor state and any mutating command that succeeds (as
run brackets it with the snapshot push), an undo restores the view, the
current address, the dirty flag and the marks to their pre-command values,
and a second undo returns to the post-command state: undo toggles between
the two most recent states. -/
theorem undo_toggle (s : EdState) (c : Cmd) (hm : c.isMutating = true)
    (hok : (EdStep c s).2 = none) :
    let s1 := (EdStep c s).1
    let s2 := (EdStep Cmd.undo s1).1
    let s3 := (EdStep Cmd.undo s2).1
    (s2.fb.file = s.fb.file ∧ s2.fb.addr = s.fb.addr ∧ s2.fb.dirty = s.fb.dirty
      ∧ s2.fb.marks = s.fb.marks)
    ∧ (s3.fb.file = s1.fb.file ∧ s3.fb.addr = s1.fb.addr ∧ s3.fb.dirty = s1.fb.dirty
      ∧ s3.fb.marks = s1.fb.marks) := by
  cases c with
  | undo => exact absurd hm (by simp [Cmd.isMutating])
  | delete a => exact ⟨⟨rfl, rfl, rfl, rfl⟩, rfl, rfl, rfl, rfl⟩
  | insertCmd app a ls => exact ⟨⟨rfl, rfl, rfl, rfl⟩, rfl, rfl, rfl, rfl⟩
  | change a ls => exact ⟨⟨rfl, rfl, rfl, rfl⟩, rfl, rfl, rfl, rfl⟩
  | print a => exact ⟨⟨rfl, rfl, rfl, rfl⟩, rfl, rfl, rfl, rfl⟩
  | join a => exact ⟨⟨rfl, rfl, rfl, rfl⟩, rfl, rfl, rfl, rfl⟩
  | move a d im => exact ⟨⟨rfl, rfl, rfl, rfl⟩, rfl, rfl, rfl, rfl⟩
  | subst a rep m => exact ⟨⟨rfl, rfl, rfl, rfl⟩, rfl, rfl, rfl, rfl⟩
  | write a => exact ⟨⟨rfl, rfl, rfl, rfl⟩, rfl, rfl, rfl, rfl⟩
  | editLoad fo co => exact ⟨⟨rfl, rfl, rfl, rfl⟩, rfl, rfl, rfl, rfl⟩
  | markCmd ch a => exact ⟨⟨rfl, rfl, rfl, rfl⟩, rfl, rfl, rfl, rfl⟩

/-- C1 witness: deleting line 0 of [a, b, c] (a mutating command that
succeeds) then undoing restores view, address, dirty flag and marks; a
second undo returns to the post-delete state. -/
theorem undo_toggle_witness :
    (Cmd.delete [0]).isMutating = true
    ∧ (EdStep (Cmd.delete [0]) ⟨bufABC, []⟩).2 = none
    ∧ (let s1 := (EdStep (Cmd.delete [0]) ⟨bufABC, []⟩).1
       let s2 := (EdStep Cmd.undo s1).1
       let s3 := (EdStep Cmd.undo s2).1
       (s2.fb.file = bufABC.file ∧ s2.fb.addr = bufABC.addr ∧ s2.fb.dirty = bufABC.dirty
         ∧ s2.fb.marks = bufABC.marks)
       ∧ (s3.fb.file = s1.fb.file ∧ s3.fb.addr = s1.fb.addr ∧ s3.fb.dirty = s1.fb.dirty
         ∧ s3.fb.marks = s1.fb.marks)) :=
  ⟨rfl, by decide, undo_toggle ⟨bufABC, []⟩ (Cmd.delete [0]) rfl (by decide)⟩

end Ged
